import Mathlib

/-- Metadata values stored in a document's metadata mapping.  Scores are
rationals; other values are uninterpreted strings or numbers. -/
inductive MVal where
  | num : ℚ → MVal
  | str : String → MVal
deriving DecidableEq, Repr

/-- A metadata mapping: an association list keyed by strings, in
insertion order, as a Python dict. -/
abbrev Metadata := List (String × MVal)

/-- Lookup of a key in a metadata mapping (first occurrence). -/
def lookupKey : Metadata → String → Option MVal
  | [], _ => none
  | (k, v) :: rest, k0 => if k = k0 then some v else lookupKey rest k0

/-- Python dict assignment `m[k] = v`: replace the value at `k` in
place if present, else append the new binding at the end. -/
def setKey : Metadata → String → MVal → Metadata
  | [], k0, v0 => [(k0, v0)]
  | (k, v) :: rest, k0, v0 =>
    if k = k0 then (k, v0) :: rest else (k, v) :: setKey rest k0 v0

/-- `langchain_core.documents.Document`: a text payload plus metadata. -/
structure Document where
  page_content : String
  metadata : Metadata
deriving DecidableEq, Repr

/-- One entry of the remote rerank response: the index of the document in
the request batch and its relevance score. -/
structure RerankEntry where
  index : Nat
  score : ℚ
deriving DecidableEq, Repr

/-- The remote rerank response: an ordered list of entries. -/
structure RerankResponse where
  data : List RerankEntry
deriving DecidableEq, Repr

/-- Configuration fields of a `PineconeRerank` compressor. -/
structure Config where
  model : String
  top_n : Option Nat
  truncation : String
deriving DecidableEq, Repr

/-- Default field values of `PineconeRerank`. -/
def defaultConfig : Config :=
  { model := "pinecone-rerank-v0", top_n := some 5, truncation := "END" }

/-- An element of `_rerank`'s input: a `Document` or a raw string. -/
inductive DocInput where
  | doc : Document → DocInput
  | str : String → DocInput
deriving DecidableEq, Repr

/-- Text extraction in `_rerank`:
`doc.page_content if isinstance(doc, Document) else doc`. -/
def extractText : DocInput → String
  | DocInput.doc d => d.page_content
  | DocInput.str s => s

/-- The request `_rerank` sends to `client.inference.rerank`. -/
structure RerankRequest where
  model : String
  query : String
  documents : List String
  top_n : Option Nat
  return_documents : Bool
  truncate : String
deriving DecidableEq, Repr

/-- Request shaping performed by `_rerank` / `_arerank`. -/
def rerankRequest (cfg : Config) (documents : List DocInput) (query : String) :
    RerankRequest :=
  { model := cfg.model
    query := query
    documents := documents.map extractText
    top_n := cfg.top_n
    return_documents := true
    truncate := cfg.truncation }

/-- Round the fraction `n / d` (with `d > 0`) to the nearest integer,
ties to even, as Python's `round` on an exactly representable value:
`f` is the floor, `r` the remainder, and `2 * r` is compared to `d`. -/
def roundHalfEven (n d : ℤ) : ℤ :=
  let f : ℤ := Int.ediv n d
  let r : ℤ := n - f * d
  if 2 * r < d then f
  else if d < 2 * r then f + 1
  else if f % 2 = 0 then f else f + 1

/-- Python `round(x, 4)`: round to 4 decimal places, ties to even.  The
integer nearest to `x * 10000` is computed on the numerator and
denominator of `x` directly. -/
def round4 (q : ℚ) : ℚ := (roundHalfEven (q.num * 10000) (q.den : ℤ) : ℚ) / 10000

/-- The loop body of `compress_documents`: resolve the original document
at `res.index`, copy it, and set the rounded `relevance_score` in the
copy's metadata.  `none` models the `IndexError` Python raises when the
reported index is out of range. -/
def rerankEntryToDoc (documents : List Document) (res : RerankEntry) :
    Option Document :=
  match documents.get? res.index with
  | none => none
  | some doc =>
      some { page_content := doc.page_content
             metadata := setKey doc.metadata "relevance_score"
               (MVal.num (round4 res.score)) }

/-- The result-mapping loop of `compress_documents`, over the response
entries in order; fails at the first out-of-range index. -/
def buildCompressed (documents : List Document) :
    List RerankEntry → Option (List Document)
  | [] => some []
  | e :: rest =>
    match rerankEntryToDoc documents e with
    | none => none
    | some d =>
      match buildCompressed documents rest with
      | none => none
      | some ds => some (d :: ds)

/-- Errors `compress_documents` can surface: an error propagated from the
remote client, or the `IndexError` from `documents[res.index]`. -/
inductive CompressError (ε : Type) where
  | remote : ε → CompressError ε
  | indexError : CompressError ε
deriving DecidableEq, Repr

/-- `compress_documents`.  The remote client is the oracle `remote`; the
second component records the rerank requests issued during the call. -/
def compressDocuments {ε : Type} (cfg : Config)
    (remote : RerankRequest → Except ε RerankResponse)
    (documents : List Document) (query : String) :
    Except (CompressError ε) (List Document) × List RerankRequest :=
  if documents.length = 0 then (Except.ok [], [])
  else
    match remote (rerankRequest cfg (documents.map DocInput.doc) query) with
    | Except.error e =>
      (Except.error (CompressError.remote e),
       [rerankRequest cfg (documents.map DocInput.doc) query])
    | Except.ok results =>
      match buildCompressed documents results.data with
      | none =>
        (Except.error CompressError.indexError,
         [rerankRequest cfg (documents.map DocInput.doc) query])
      | some compressed =>
        (Except.ok compressed,
         [rerankRequest cfg (documents.map DocInput.doc) query])

/-- `acompress_documents`: the asynchronous variant.  Its body is the
same computation as `compress_documents`, with the await at the remote
call boundary. -/
def acompressDocuments {ε : Type} (cfg : Config)
    (remote : RerankRequest → Except ε RerankResponse)
    (documents : List Document) (query : String) :
    Except (CompressError ε) (List Document) × List RerankRequest :=
  if documents.length = 0 then (Except.ok [], [])
  else
    match remote (rerankRequest cfg (documents.map DocInput.doc) query) with
    | Except.error e =>
      (Except.error (CompressError.remote e),
       [rerankRequest cfg (documents.map DocInput.doc) query])
    | Except.ok results =>
      match buildCompressed documents results.data with
      | none =>
        (Except.error CompressError.indexError,
         [rerankRequest cfg (documents.map DocInput.doc) query])
      | some compressed =>
        (Except.ok compressed,
         [rerankRequest cfg (documents.map DocInput.doc) query])

/-- The document built by the loop body for a response entry, given the
original document it resolves to. -/
def outputDoc (doc : Document) (score : ℚ) : Document :=
  { page_content := doc.page_content
    metadata := setKey doc.metadata "relevance_score" (MVal.num (round4 score)) }

/-- A document in the heap model: its metadata is a reference to a cell
of a store, as a Python object holds a reference to its metadata dict. -/
structure HDocument where
  page_content : String
  metaRef : Nat
deriving DecidableEq, Repr

/-- The heap of metadata dicts.  Cell addresses are list positions. -/
structure Store where
  cells : List Metadata
deriving DecidableEq, Repr

/-- Read the metadata dict at address `r`. -/
def Store.read (s : Store) (r : Nat) : Metadata := (s.cells.get? r).getD []

/-- Overwrite the metadata dict at address `r`. -/
def Store.write (s : Store) (r : Nat) (m : Metadata) : Store := ⟨s.cells.set r m⟩

/-- The store after one loop iteration of `compress_documents` on the
original metadata at address `r0`: `deepcopy` allocates a fresh cell at
the end of the heap holding a copy of the dict at `r0`, and the
assignment `doc_copy.metadata["relevance_score"] = ...` then mutates
that fresh cell in place. -/
def stepStore (s : Store) (r0 : Nat) (score : ℚ) : Store :=
  Store.write ⟨s.cells ++ [s.read r0]⟩ s.cells.length
    (setKey (Store.read ⟨s.cells ++ [s.read r0]⟩ s.cells.length) "relevance_score"
      (MVal.num (round4 score)))

/-- One loop iteration of `compress_documents` in the heap model. -/
def compressStepHeap (documents : List HDocument) (e : RerankEntry) (s : Store) :
    Option (HDocument × Store) :=
  match documents.get? e.index with
  | none => none
  | some doc =>
    some ({ page_content := doc.page_content, metaRef := s.cells.length },
          stepStore s doc.metaRef e.score)

/-- The result-mapping loop of `compress_documents` in the heap model. -/
def compressHeap (documents : List HDocument) :
    List RerankEntry → Store → Option (List HDocument × Store)
  | [], s => some ([], s)
  | e :: rest, s =>
    match compressStepHeap documents e s with
    | none => none
    | some (d, s1) =>
      match compressHeap documents rest s1 with
      | none => none
      | some (ds, s2) => some (d :: ds, s2)

/-- A first concrete document: metadata with one unrelated key. -/
def docA : Document := ⟨"alpha", [("k", MVal.str "v")]⟩

/-- A second concrete document with empty metadata. -/
def docB : Document := ⟨"beta", []⟩

/-- A concrete two-document input. -/
def docsEx : List Document := [docA, docB]

/-- A concrete well-formed remote response, reordering the input. -/
def respEx : RerankResponse := ⟨[⟨1, 1⟩, ⟨0, 0⟩]⟩

/-- A remote client that always succeeds with `respEx`. -/
def remoteOkEx : RerankRequest → Except String RerankResponse :=
  fun _ => Except.ok respEx

/-- A remote client that always fails. -/
def remoteErrEx : RerankRequest → Except String RerankResponse :=
  fun _ => Except.error "connection refused"

/-- The output of `compressDocuments` on `docsEx` under `remoteOkEx`. -/
def outEx : List Document :=
  [⟨"beta", [("relevance_score", MVal.num (round4 1))]⟩,
   ⟨"alpha", [("k", MVal.str "v"), ("relevance_score", MVal.num (round4 0))]⟩]

/-- A one-document input. -/
def docsOne : List Document := [docB]

/-- A misbehaving remote response repeating index 0 twice. -/
def respDup : RerankResponse := ⟨[⟨0, 1⟩, ⟨0, 1⟩]⟩

/-- A remote client returning the duplicated response. -/
def remoteDup : RerankRequest → Except String RerankResponse :=
  fun _ => Except.ok respDup

/-- The output of `compressDocuments` on `docsOne` under `remoteDup`. -/
def outDup : List Document :=
  [⟨"beta", [("relevance_score", MVal.num (round4 1))]⟩,
   ⟨"beta", [("relevance_score", MVal.num (round4 1))]⟩]

/-- A remote response whose index 5 is out of range for `docsEx`. -/
def respBad : RerankResponse := ⟨[⟨5, 1⟩]⟩

/-- A remote client returning the out-of-range response. -/
def remoteBad : RerankRequest → Except String RerankResponse :=
  fun _ => Except.ok respBad

/-- A document whose metadata already carries a `relevance_score`. -/
def docC : Document := ⟨"gamma", [("relevance_score", MVal.num 7)]⟩

/-- The single-document input for the overwrite scenario. -/
def docsC10 : List Document := [docC]

/-- A remote response scoring that document 0. -/
def respC10 : RerankResponse := ⟨[⟨0, 0⟩]⟩

/-- A remote client returning `respC10`. -/
def remoteC10 : RerankRequest → Except String RerankResponse :=
  fun _ => Except.ok respC10

/-- The output document of the overwrite scenario. -/
def odC10 : Document := ⟨"gamma", [("relevance_score", MVal.num (round4 0))]⟩

/-- A concrete heap with one metadata cell. -/
def storeEx : Store := ⟨[[("k", MVal.str "v")]]⟩

/-- A heap-model document whose metadata lives at address 0. -/
def hdocEx : HDocument := ⟨"alpha", 0⟩

/-- The heap-model output list of the concrete run. -/
def heapOutEx : List HDocument := [⟨"alpha", 1⟩]

/-- The heap after the concrete run: the original cell plus the fresh
copy carrying the added score. -/
def storeEx2 : Store :=
  ⟨[[("k", MVal.str "v")],
    [("k", MVal.str "v"), ("relevance_score", MVal.num (round4 1))]]⟩

theorem lookupKey_setKey_self (m : Metadata) (k : String) (v : MVal) :
    lookupKey (setKey m k v) k = some v := by
  induction m with
  | nil => simp [setKey, lookupKey]
  | cons p rest ih =>
    by_cases h : p.1 = k
    · simp [setKey, lookupKey, h]
    · simp [setKey, lookupKey, h, ih]

theorem lookupKey_setKey_ne (m : Metadata) (k : String) (v : MVal) (k0 : String)
    (h : k ≠ k0) : lookupKey (setKey m k v) k0 = lookupKey m k0 := by
  induction m with
  | nil => simp [setKey, lookupKey, h]
  | cons p rest ih =>
    by_cases hp : p.1 = k
    · simp [setKey, lookupKey, hp, h]
    · simp [setKey, lookupKey, hp, ih]

theorem length_setKey_of_none (m : Metadata) (k : String) (v : MVal)
    (h : lookupKey m k = none) : (setKey m k v).length = m.length + 1 := by
  induction m with
  | nil => simp [setKey]
  | cons p rest ih =>
    by_cases hp : p.1 = k
    · simp [lookupKey, hp] at h
    · simp [lookupKey, hp] at h
      simp [setKey, hp, ih h]

theorem rerankEntryToDoc_eq_some (docs : List Document) (e : RerankEntry)
    (d : Document) (h : rerankEntryToDoc docs e = some d) :
    ∃ doc, docs.get? e.index = some doc ∧ d = outputDoc doc e.score := by
  unfold rerankEntryToDoc at h
  cases hg : docs.get? e.index with
  | none => rw [hg] at h; exact absurd h (by simp)
  | some doc =>
    rw [hg] at h
    exact ⟨doc, rfl, by simpa [outputDoc] using h.symm⟩

theorem rerankEntryToDoc_of_get (docs : List Document) (e : RerankEntry)
    (doc : Document) (h : docs.get? e.index = some doc) :
    rerankEntryToDoc docs e = some (outputDoc doc e.score) := by
  unfold rerankEntryToDoc
  rw [h]
  rfl

theorem rerankEntryToDoc_none (docs : List Document) (e : RerankEntry)
    (h : docs.length ≤ e.index) : rerankEntryToDoc docs e = none := by
  unfold rerankEntryToDoc
  rw [List.get?_eq_none.mpr h]

theorem buildCompressed_length (docs : List Document) :
    ∀ (entries : List RerankEntry) (out : List Document),
      buildCompressed docs entries = some out → out.length = entries.length := by
  intro entries
  induction entries with
  | nil => intro out h; simp [buildCompressed] at h; simp [← h]
  | cons e rest ih =>
    intro out h
    unfold buildCompressed at h
    cases hE : rerankEntryToDoc docs e with
    | none => rw [hE] at h; exact absurd h (by simp)
    | some d =>
      rw [hE] at h
      cases hB : buildCompressed docs rest with
      | none => rw [hB] at h; exact absurd h (by simp)
      | some ds =>
        rw [hB] at h
        simp only [Option.some_inj] at h
        rw [← h]
        simp [ih ds hB]

theorem buildCompressed_get (docs : List Document) :
    ∀ (entries : List RerankEntry) (out : List Document),
      buildCompressed docs entries = some out →
      ∀ i, i < entries.length →
        ∃ e d, entries.get? i = some e ∧ docs.get? e.index = some d ∧
          out.get? i = some (outputDoc d e.score) := by
  intro entries
  induction entries with
  | nil => intro out _ i hi; exact absurd hi (by simp)
  | cons e rest ih =>
    intro out h i hi
    unfold buildCompressed at h
    cases hE : rerankEntryToDoc docs e with
    | none => rw [hE] at h; exact absurd h (by simp)
    | some d =>
      rw [hE] at h
      cases hB : buildCompressed docs rest with
      | none => rw [hB] at h; exact absurd h (by simp)
      | some ds =>
        rw [hB] at h
        simp only [Option.some_inj] at h
        obtain ⟨doc, hdoc, hd⟩ := rerankEntryToDoc_eq_some docs e d hE
        cases i with
        | zero => exact ⟨e, doc, rfl, hdoc, by rw [← h]; simp [hd]⟩
        | succ j =>
          have hj : j < rest.length := by simpa [Nat.succ_lt_succ_iff] using hi
          obtain ⟨e0, d0, he0, hd0, ho0⟩ := ih ds hB j hj
          exact ⟨e0, d0, by simpa using he0, hd0, by rw [← h]; simpa using ho0⟩

theorem buildCompressed_isSome (docs : List Document) :
    ∀ (entries : List RerankEntry),
      (∀ e ∈ entries, e.index < docs.length) →
      ∃ out, buildCompressed docs entries = some out := by
  intro entries
  induction entries with
  | nil => intro _; exact ⟨[], rfl⟩
  | cons e rest ih =>
    intro h
    have he : e.index < docs.length := h e (by simp)
    obtain ⟨out1, h1⟩ := ih (fun x hx => h x (by simp [hx]))
    unfold buildCompressed
    rw [rerankEntryToDoc_of_get docs e (docs.get ⟨e.index, he⟩) (List.get?_eq_get he),
        h1]
    exact ⟨_, rfl⟩

theorem buildCompressed_none (docs : List Document) :
    ∀ (entries : List RerankEntry),
      (∃ e ∈ entries, docs.length ≤ e.index) →
      buildCompressed docs entries = none := by
  intro entries
  induction entries with
  | nil => intro h; simp at h
  | cons e rest ih =>
    intro h
    unfold buildCompressed
    rcases h with ⟨e0, hmem, hbad⟩
    rcases List.mem_cons.mp hmem with h0 | h0
    · rw [h0] at hbad
      rw [rerankEntryToDoc_none docs e hbad]
    · cases hE : rerankEntryToDoc docs e with
      | none => rfl
      | some d => rw [ih ⟨e0, h0, hbad⟩]

theorem compressDocuments_remote_error {ε : Type} (cfg : Config)
    (remote : RerankRequest → Except ε RerankResponse)
    (docs : List Document) (q : String) (e : ε)
    (hne : docs ≠ [])
    (hr : remote (rerankRequest cfg (docs.map DocInput.doc) q) = Except.error e) :
    compressDocuments cfg remote docs q =
      (Except.error (CompressError.remote e),
       [rerankRequest cfg (docs.map DocInput.doc) q]) := by
  unfold compressDocuments
  rw [if_neg (fun h => hne (List.length_eq_zero.mp h)), hr]

theorem compressDocuments_ok (cfg : Config) {ε : Type}
    (remote : RerankRequest → Except ε RerankResponse)
    (docs : List Document) (q : String) (resp : RerankResponse)
    (hne : docs ≠ [])
    (hr : remote (rerankRequest cfg (docs.map DocInput.doc) q) = Except.ok resp) :
    compressDocuments cfg remote docs q =
      match buildCompressed docs resp.data with
      | none =>
        (Except.error CompressError.indexError,
         [rerankRequest cfg (docs.map DocInput.doc) q])
      | some compressed =>
        (Except.ok compressed,
         [rerankRequest cfg (docs.map DocInput.doc) q]) := by
  unfold compressDocuments
  rw [if_neg (fun h => hne (List.length_eq_zero.mp h)), hr]

theorem compressDocuments_fst_ok (cfg : Config) {ε : Type}
    (remote : RerankRequest → Except ε RerankResponse)
    (docs : List Document) (q : String) (resp : RerankResponse)
    (out : List Document)
    (hne : docs ≠ [])
    (hr : remote (rerankRequest cfg (docs.map DocInput.doc) q) = Except.ok resp)
    (hout : (compressDocuments cfg remote docs q).1 = Except.ok out) :
    buildCompressed docs resp.data = some out := by
  rw [compressDocuments_ok cfg remote docs q resp hne hr] at hout
  cases hB : buildCompressed docs resp.data with
  | none => rw [hB] at hout; exact absurd hout (by simp)
  | some c => rw [hB] at hout; simpa using hout

theorem compressDocuments_requests {ε : Type} (cfg : Config)
    (remote : RerankRequest → Except ε RerankResponse)
    (docs : List Document) (q : String)
    (hne : docs ≠ []) :
    (compressDocuments cfg remote docs q).2 =
      [rerankRequest cfg (docs.map DocInput.doc) q] := by
  cases hR : remote (rerankRequest cfg (docs.map DocInput.doc) q) with
  | error e => rw [compressDocuments_remote_error cfg remote docs q e hne hR]
  | ok resp =>
    rw [compressDocuments_ok cfg remote docs q resp hne hR]
    cases hB : buildCompressed docs resp.data with
    | none => rfl
    | some c => rfl

theorem Store.read_write_ne (s : Store) (r w : Nat) (m : Metadata) (h : r ≠ w) :
    (s.write w m).read r = s.read r := by
  simp [Store.write, Store.read, List.getElem?_set_ne (fun hh => h hh.symm)]

theorem stepStore_length (s : Store) (r0 : Nat) (score : ℚ) :
    (stepStore s r0 score).cells.length = s.cells.length + 1 := by
  simp [stepStore, Store.write]

theorem stepStore_read_old (s : Store) (r0 : Nat) (score : ℚ) (r : Nat)
    (h : r < s.cells.length) : (stepStore s r0 score).read r = s.read r := by
  rw [stepStore, Store.read_write_ne _ _ _ _ (Nat.ne_of_lt h)]
  simp [Store.read, List.getElem?_append_left h]

theorem compressStepHeap_spec (documents : List HDocument) (e : RerankEntry)
    (s : Store) (d : HDocument) (s1 : Store)
    (h : compressStepHeap documents e s = some (d, s1)) :
    d.metaRef = s.cells.length ∧
    s1.cells.length = s.cells.length + 1 ∧
    ∀ r, r < s.cells.length → s1.read r = s.read r := by
  unfold compressStepHeap at h
  cases hg : documents.get? e.index with
  | none => rw [hg] at h; exact absurd h (by simp)
  | some doc =>
    rw [hg] at h
    simp only [Option.some_inj, Prod.mk.injEq] at h
    refine ⟨by rw [← h.1], ?_, ?_⟩
    · rw [← h.2]; exact stepStore_length s doc.metaRef e.score
    · intro r hr; rw [← h.2]; exact stepStore_read_old s doc.metaRef e.score r hr

theorem compressHeap_spec (documents : List HDocument) :
    ∀ (entries : List RerankEntry) (s : Store) (out : List HDocument) (s2 : Store),
      compressHeap documents entries s = some (out, s2) →
      s.cells.length ≤ s2.cells.length ∧
      (∀ r, r < s.cells.length → s2.read r = s.read r) ∧
      (∀ o ∈ out, s.cells.length ≤ o.metaRef ∧ o.metaRef < s2.cells.length) := by
  intro entries
  induction entries with
  | nil =>
    intro s out s2 h
    simp only [compressHeap, Option.some_inj, Prod.mk.injEq] at h
    refine ⟨by rw [h.2], fun r _ => by rw [h.2], ?_⟩
    intro o ho; rw [← h.1] at ho; simp at ho
  | cons e rest ih =>
    intro s out s2 h
    unfold compressHeap at h
    cases hS : compressStepHeap documents e s with
    | none => rw [hS] at h; exact absurd h (by simp)
    | some p =>
      obtain ⟨d, s1⟩ := p
      rw [hS] at h
      simp only [] at h
      cases hR : compressHeap documents rest s1 with
      | none => rw [hR] at h; exact absurd h (by simp)
      | some p2 =>
        obtain ⟨ds, s2x⟩ := p2
        rw [hR] at h
        simp only [Option.some_inj, Prod.mk.injEq] at h
        obtain ⟨h1, h2⟩ := h
        obtain ⟨hmeta, hlen1, hread1⟩ :=
          compressStepHeap_spec documents e s d s1 hS
        obtain ⟨hlen2, hread2, hfresh2⟩ := ih s1 ds s2x hR
        refine ⟨by rw [← h2]; omega, ?_, ?_⟩
        · intro r hr
          rw [← h2, hread2 r (by omega), hread1 r hr]
        · intro o ho
          rw [← h1] at ho
          rcases List.mem_cons.mp ho with h0 | h0
          · constructor
            · rw [h0, hmeta]
            · rw [h0, hmeta, ← h2]; omega
          · obtain ⟨hf1, hf2⟩ := hfresh2 o h0
            exact ⟨by omega, by rw [← h2]; exact hf2⟩

example : roundHalfEven 5 2 = 2 := by decide

example : roundHalfEven (-3) 2 = -2 := by decide

example : roundHalfEven 12345 10 = 1234 := by decide

example : roundHalfEven 12355 10 = 1236 := by decide

example :
    compressDocuments defaultConfig
      (fun _ => (Except.ok ⟨[⟨1, 1⟩, ⟨0, 0⟩]⟩ : Except String RerankResponse))
      [⟨"a", []⟩, ⟨"b", [("k", MVal.str "v")]⟩] "q"
    = (Except.ok [⟨"b", [("k", MVal.str "v"), ("relevance_score", MVal.num (round4 1))]⟩,
                  ⟨"a", [("relevance_score", MVal.num (round4 0))]⟩],
       [⟨"pinecone-rerank-v0", "q", ["a", "b"], some 5, true, "END"⟩]) := by
  rfl

theorem round4_zero : round4 0 = 0 := by
  have h : roundHalfEven ((0 : ℚ).num * 10000) (((0 : ℚ).den : ℤ)) = 0 := by decide
  simp only [round4, h]
  norm_num

/-- Claim C1: for every non-empty input and remote response, the i-th
output document of `compress_documents` is built from the input document
at position `response.data[i].index`, and the output order is exactly
the order of the response entries, regardless of the input order. -/
theorem c1_output_follows_response_order {ε : Type} (cfg : Config)
    (remote : RerankRequest → Except ε RerankResponse)
    (docs : List Document) (q : String) (resp : RerankResponse)
    (out : List Document)
    (hne : docs ≠ [])
    (hr : remote (rerankRequest cfg (docs.map DocInput.doc) q) = Except.ok resp)
    (hout : (compressDocuments cfg remote docs q).1 = Except.ok out) :
    out.length = resp.data.length ∧
    ∀ i, i < out.length →
      ∃ e d, resp.data.get? i = some e ∧ docs.get? e.index = some d ∧
        out.get? i = some (outputDoc d e.score) := by
  have hB := compressDocuments_fst_ok cfg remote docs q resp out hne hr hout
  have hlen := buildCompressed_length docs resp.data out hB
  exact ⟨hlen, fun i hi => buildCompressed_get docs resp.data out hB i (by omega)⟩

theorem c1_witness :
    outEx.length = respEx.data.length ∧
    ∀ i, i < outEx.length →
      ∃ e d, respEx.data.get? i = some e ∧ docsEx.get? e.index = some d ∧
        outEx.get? i = some (outputDoc d e.score) :=
  c1_output_follows_response_order defaultConfig remoteOkEx docsEx "q" respEx
    outEx (by decide) rfl rfl

/-- Claim C2: each output document of `compress_documents` keeps the
input document's text payload, and its metadata is the input metadata
with the `relevance_score` key set to the response score rounded to 4
decimal places; all other keys are unchanged, and when the key was
absent exactly one key is added. -/
theorem c2_metadata_copy_plus_score {ε : Type} (cfg : Config)
    (remote : RerankRequest → Except ε RerankResponse)
    (docs : List Document) (q : String) (resp : RerankResponse)
    (out : List Document) (i : Nat) (e : RerankEntry) (d od : Document)
    (hne : docs ≠ [])
    (hr : remote (rerankRequest cfg (docs.map DocInput.doc) q) = Except.ok resp)
    (hout : (compressDocuments cfg remote docs q).1 = Except.ok out)
    (hi : resp.data.get? i = some e)
    (hd : docs.get? e.index = some d)
    (ho : out.get? i = some od) :
    od.page_content = d.page_content ∧
    lookupKey od.metadata "relevance_score" = some (MVal.num (round4 e.score)) ∧
    (∀ k, k ≠ "relevance_score" →
      lookupKey od.metadata k = lookupKey d.metadata k) ∧
    (lookupKey d.metadata "relevance_score" = none →
      od.metadata.length = d.metadata.length + 1) := by
  have hB := compressDocuments_fst_ok cfg remote docs q resp out hne hr hout
  have hlen := buildCompressed_length docs resp.data out hB
  obtain ⟨hlt, _⟩ := List.get?_eq_some.mp ho
  obtain ⟨e0, d0, he0, hd0, ho0⟩ :=
    buildCompressed_get docs resp.data out hB i (by omega)
  rw [hi] at he0
  obtain rfl : e = e0 := by simpa using he0
  rw [hd] at hd0
  obtain rfl : d = d0 := by simpa using hd0
  rw [ho] at ho0
  obtain rfl : od = outputDoc d e.score := by simpa using ho0
  refine ⟨rfl, lookupKey_setKey_self d.metadata _ _, ?_, ?_⟩
  · intro k hk
    exact lookupKey_setKey_ne d.metadata "relevance_score" _ k (fun hh => hk hh.symm)
  · intro habs
    exact length_setKey_of_none d.metadata "relevance_score" _ habs

theorem c2_witness :
    odC10.page_content = docC.page_content ∧
    lookupKey odC10.metadata "relevance_score" = some (MVal.num (round4 0)) ∧
    (∀ k, k ≠ "relevance_score" →
      lookupKey odC10.metadata k = lookupKey docC.metadata k) ∧
    (lookupKey docC.metadata "relevance_score" = none →
      odC10.metadata.length = docC.metadata.length + 1) :=
  c2_metadata_copy_plus_score defaultConfig remoteC10 docsC10 "q" respC10
    [odC10] 0 ⟨0, 0⟩ docC odC10 (by decide) rfl rfl rfl rfl rfl

/-- Claim C3 is false as stated: the code never bounds the output length
locally, so a remote response with more entries than
`min top_n (input length)` yields a longer output.  Concretely, on the
one-document input `docsOne` with the default `top_n = 5`, a response
repeating index 0 twice produces two output documents, exceeding
`min 5 1 = 1`. -/
theorem c3_counterexample :
    ¬ (∀ out : List Document,
        (compressDocuments defaultConfig remoteDup docsOne "q").1 = Except.ok out →
        out.length ≤ min 5 docsOne.length) := by
  intro hcl
  have h := hcl outDup rfl
  simp [outDup, docsOne, docB] at h

/-- Claim C3 amended: the output length always equals the number of
response entries; hence it is bounded by `min top_n (input length)`
exactly when the remote response respects that bound. -/
theorem c3_amended_output_length {ε : Type} (cfg : Config)
    (remote : RerankRequest → Except ε RerankResponse)
    (docs : List Document) (q : String) (resp : RerankResponse)
    (out : List Document)
    (hne : docs ≠ [])
    (hr : remote (rerankRequest cfg (docs.map DocInput.doc) q) = Except.ok resp)
    (hout : (compressDocuments cfg remote docs q).1 = Except.ok out) :
    out.length = resp.data.length ∧
    ∀ t : ℕ, cfg.top_n = some t → resp.data.length ≤ min t docs.length →
      out.length ≤ min t docs.length := by
  have hB := compressDocuments_fst_ok cfg remote docs q resp out hne hr hout
  have hlen := buildCompressed_length docs resp.data out hB
  exact ⟨hlen, fun t _ hle => by omega⟩

theorem c3_witness :
    outEx.length = respEx.data.length ∧
    ∀ t : ℕ, defaultConfig.top_n = some t →
      respEx.data.length ≤ min t docsEx.length →
      outEx.length ≤ min t docsEx.length :=
  c3_amended_output_length defaultConfig remoteOkEx docsEx "q" respEx outEx
    (by decide) rfl rfl

/-- Claim C4: on an empty input both `compress_documents` and
`acompress_documents` return the empty sequence and issue no rerank
request. -/
theorem c4_empty_input {ε : Type} (cfg : Config)
    (remote : RerankRequest → Except ε RerankResponse) (q : String) :
    compressDocuments cfg remote [] q = (Except.ok [], []) ∧
    acompressDocuments cfg remote [] q = (Except.ok [], []) :=
  ⟨rfl, rfl⟩

/-- Claim C5: on a non-empty input, a failing remote call makes both
variants surface exactly the remote error, after exactly one request
(no retry); the configuration is a read-only parameter, so the
compressor state is unchanged by construction. -/
theorem c5_error_propagation {ε : Type} (cfg : Config)
    (remote : RerankRequest → Except ε RerankResponse)
    (docs : List Document) (q : String) (e : ε)
    (hne : docs ≠ [])
    (hr : remote (rerankRequest cfg (docs.map DocInput.doc) q) = Except.error e) :
    compressDocuments cfg remote docs q =
      (Except.error (CompressError.remote e),
       [rerankRequest cfg (docs.map DocInput.doc) q]) ∧
    acompressDocuments cfg remote docs q =
      (Except.error (CompressError.remote e),
       [rerankRequest cfg (docs.map DocInput.doc) q]) := by
  have h1 := compressDocuments_remote_error cfg remote docs q e hne hr
  exact ⟨h1, by rw [← h1]; rfl⟩

theorem c5_witness :
    compressDocuments defaultConfig remoteErrEx docsEx "q" =
      (Except.error (CompressError.remote "connection refused"),
       [rerankRequest defaultConfig (docsEx.map DocInput.doc) "q"]) ∧
    acompressDocuments defaultConfig remoteErrEx docsEx "q" =
      (Except.error (CompressError.remote "connection refused"),
       [rerankRequest defaultConfig (docsEx.map DocInput.doc) "q"]) :=
  c5_error_propagation defaultConfig remoteErrEx docsEx "q" "connection refused"
    (by decide) rfl

/-- Claim C6: the asynchronous variant computes exactly the same result
as the synchronous one on every input. -/
theorem c6_async_equals_sync {ε : Type} (cfg : Config)
    (remote : RerankRequest → Except ε RerankResponse)
    (docs : List Document) (q : String) :
    acompressDocuments cfg remote docs q = compressDocuments cfg remote docs q :=
  rfl

/-- Claim C7: in the heap model, a successful run leaves every input
document's metadata cell unchanged, every output document's metadata
reference is distinct from every input document's reference, and
mutating any output document's metadata cell cannot change what any
input document's metadata reads as. -/
theorem c7_inputs_unmodified_and_fresh (documents : List HDocument)
    (entries : List RerankEntry) (s : Store) (out : List HDocument) (s2 : Store)
    (hwf : ∀ d ∈ documents, d.metaRef < s.cells.length)
    (hrun : compressHeap documents entries s = some (out, s2)) :
    (∀ d ∈ documents, s2.read d.metaRef = s.read d.metaRef) ∧
    (∀ o ∈ out, ∀ d ∈ documents, o.metaRef ≠ d.metaRef) ∧
    (∀ o ∈ out, ∀ m : Metadata, ∀ d ∈ documents,
      (s2.write o.metaRef m).read d.metaRef = s.read d.metaRef) := by
  obtain ⟨hlen, hread, hfresh⟩ := compressHeap_spec documents entries s out s2 hrun
  refine ⟨fun d hd => hread d.metaRef (hwf d hd), ?_, ?_⟩
  · intro o ho d hd
    have h1 := (hfresh o ho).1
    have h2 := hwf d hd
    omega
  · intro o ho m d hd
    have h1 := (hfresh o ho).1
    have h2 := hwf d hd
    rw [Store.read_write_ne s2 d.metaRef o.metaRef m (by omega)]
    exact hread d.metaRef h2

theorem c7_witness :
    (∀ d ∈ [hdocEx], storeEx2.read d.metaRef = storeEx.read d.metaRef) ∧
    (∀ o ∈ heapOutEx, ∀ d ∈ [hdocEx], o.metaRef ≠ d.metaRef) ∧
    (∀ o ∈ heapOutEx, ∀ m : Metadata, ∀ d ∈ [hdocEx],
      (storeEx2.write o.metaRef m).read d.metaRef = storeEx.read d.metaRef) :=
  c7_inputs_unmodified_and_fresh [hdocEx] [⟨0, 1⟩] storeEx heapOutEx storeEx2
    (by decide) rfl

/-- Claim C8: on a non-empty input, the single request issued carries
the text of each input document in input order (the text payload for a
`Document`, the string itself for a raw string), the query, the model
name, the `top_n` limit, `return_documents = true`, and the configured
truncation as the `truncate` parameter. -/
theorem c8_request_contents {ε : Type} (cfg : Config)
    (remote : RerankRequest → Except ε RerankResponse)
    (docs : List Document) (q : String)
    (hne : docs ≠ []) :
    (compressDocuments cfg remote docs q).2 =
      [rerankRequest cfg (docs.map DocInput.doc) q] ∧
    (rerankRequest cfg (docs.map DocInput.doc) q).documents =
      docs.map Document.page_content ∧
    (rerankRequest cfg (docs.map DocInput.doc) q).model = cfg.model ∧
    (rerankRequest cfg (docs.map DocInput.doc) q).query = q ∧
    (rerankRequest cfg (docs.map DocInput.doc) q).top_n = cfg.top_n ∧
    (rerankRequest cfg (docs.map DocInput.doc) q).return_documents = true ∧
    (rerankRequest cfg (docs.map DocInput.doc) q).truncate = cfg.truncation ∧
    ∀ s : String, extractText (DocInput.str s) = s := by
  refine ⟨compressDocuments_requests cfg remote docs q hne, ?_,
    rfl, rfl, rfl, rfl, rfl, fun s => rfl⟩
  simp [rerankRequest, List.map_map, Function.comp, extractText]

theorem c8_witness :
    (compressDocuments defaultConfig remoteOkEx docsEx "q").2 =
      [rerankRequest defaultConfig (docsEx.map DocInput.doc) "q"] ∧
    (rerankRequest defaultConfig (docsEx.map DocInput.doc) "q").documents =
      docsEx.map Document.page_content ∧
    (rerankRequest defaultConfig (docsEx.map DocInput.doc) "q").model =
      defaultConfig.model ∧
    (rerankRequest defaultConfig (docsEx.map DocInput.doc) "q").query = "q" ∧
    (rerankRequest defaultConfig (docsEx.map DocInput.doc) "q").top_n =
      defaultConfig.top_n ∧
    (rerankRequest defaultConfig (docsEx.map DocInput.doc) "q").return_documents
      = true ∧
    (rerankRequest defaultConfig (docsEx.map DocInput.doc) "q").truncate =
      defaultConfig.truncation ∧
    ∀ s : String, extractText (DocInput.str s) = s :=
  c8_request_contents defaultConfig remoteOkEx docsEx "q" (by decide)

/-- Claim C9: the remote-reported indices are used without local
validation: when every index in the response is in range the lookup
succeeds and a result is returned, and when some index is out of range
the call fails with the indexing error instead of returning a result. -/
theorem c9_no_index_validation {ε : Type} (cfg : Config)
    (remote : RerankRequest → Except ε RerankResponse)
    (docs : List Document) (q : String) (resp : RerankResponse)
    (hne : docs ≠ [])
    (hr : remote (rerankRequest cfg (docs.map DocInput.doc) q) = Except.ok resp) :
    ((∀ e ∈ resp.data, e.index < docs.length) →
      ∃ out, (compressDocuments cfg remote docs q).1 = Except.ok out) ∧
    ((∃ e ∈ resp.data, docs.length ≤ e.index) →
      (compressDocuments cfg remote docs q).1 =
        Except.error CompressError.indexError) := by
  constructor
  · intro hvalid
    obtain ⟨out, hB⟩ := buildCompressed_isSome docs resp.data hvalid
    rw [compressDocuments_ok cfg remote docs q resp hne hr, hB]
    exact ⟨out, rfl⟩
  · intro hbad
    rw [compressDocuments_ok cfg remote docs q resp hne hr,
        buildCompressed_none docs resp.data hbad]

theorem c9_witness :
    (∃ out, (compressDocuments defaultConfig remoteOkEx docsEx "q").1 =
      Except.ok out) ∧
    (compressDocuments defaultConfig remoteBad docsEx "q").1 =
      Except.error CompressError.indexError :=
  ⟨(c9_no_index_validation defaultConfig remoteOkEx docsEx "q" respEx
      (by decide) rfl).1 (by decide),
   (c9_no_index_validation defaultConfig remoteBad docsEx "q" respBad
      (by decide) rfl).2 (by decide)⟩

/-- Claim C10: when an input document's metadata already holds a
`relevance_score` key, the output document's value at that key is the
newly computed rounded score; the original value survives only if it
happens to equal the new one. -/
theorem c10_existing_score_overwritten {ε : Type} (cfg : Config)
    (remote : RerankRequest → Except ε RerankResponse)
    (docs : List Document) (q : String) (resp : RerankResponse)
    (out : List Document) (i : Nat) (e : RerankEntry) (d od : Document)
    (v : MVal)
    (hne : docs ≠ [])
    (hr : remote (rerankRequest cfg (docs.map DocInput.doc) q) = Except.ok resp)
    (hout : (compressDocuments cfg remote docs q).1 = Except.ok out)
    (hi : resp.data.get? i = some e)
    (hd : docs.get? e.index = some d)
    (ho : out.get? i = some od)
    (hprev : lookupKey d.metadata "relevance_score" = some v) :
    lookupKey od.metadata "relevance_score" = some (MVal.num (round4 e.score)) ∧
    (v ≠ MVal.num (round4 e.score) →
      lookupKey od.metadata "relevance_score" ≠ some v) := by
  have hB := compressDocuments_fst_ok cfg remote docs q resp out hne hr hout
  have hlen := buildCompressed_length docs resp.data out hB
  obtain ⟨hlt, _⟩ := List.get?_eq_some.mp ho
  obtain ⟨e0, d0, he0, hd0, ho0⟩ :=
    buildCompressed_get docs resp.data out hB i (by omega)
  rw [hi] at he0
  obtain rfl : e = e0 := by simpa using he0
  rw [hd] at hd0
  obtain rfl : d = d0 := by simpa using hd0
  rw [ho] at ho0
  obtain rfl : od = outputDoc d e.score := by simpa using ho0
  have hscore : lookupKey (outputDoc d e.score).metadata "relevance_score" =
      some (MVal.num (round4 e.score)) := lookupKey_setKey_self d.metadata _ _
  refine ⟨hscore, fun hv hcontra => ?_⟩
  rw [hscore] at hcontra
  exact hv (Option.some_inj.mp hcontra).symm

theorem c10_witness :
    (lookupKey odC10.metadata "relevance_score" =
      some (MVal.num (round4 0)) ∧
     (MVal.num 7 ≠ MVal.num (round4 0) →
       lookupKey odC10.metadata "relevance_score" ≠ some (MVal.num 7))) ∧
    MVal.num 7 ≠ MVal.num (round4 0) :=
  ⟨c10_existing_score_overwritten defaultConfig remoteC10 docsC10 "q" respC10
      [odC10] 0 ⟨0, 0⟩ docC odC10 (MVal.num 7) (by decide) rfl rfl rfl rfl rfl
      rfl,
   by rw [round4_zero]; decide⟩
